import Mathlib

/-!
Shallow embedding of `tqueue.py` (HexDecimal/tqueue): a priority queue
scheduler for queued-turns time systems.  The Python module has a
`TurnQueue` class (fields `time`, `next_uid`, `heap`, a `heapq` min-heap of
`Ticket` named tuples) and a `Schedulable` mix-in whose `sched_ticket`
attribute is the back reference that decides ticket validity (lazy
invalidation).

Modelling choices, each justified against the source:

* Actor objects are identified by natural numbers; the `actor` field of a
  ticket stores that id, and the `sched_ticket` attribute of all actors is
  one map from actor id to `Option Ticket`.
* Python compares `Ticket` named tuples lexicographically.  Since every
  ticket is created by `Schedulable.__new_ticket` with a fresh `uid`
  (`TurnQueue.next_uid`, incremented on each creation), the comparison
  never reaches the `actor` field, so the heap order is the lexicographic
  order on `(time, uid)`, a total order on the tickets of one queue.
* The `heapq` heap is modelled as the list of its elements kept sorted by
  that order.  `heapq` promises exactly that `heap[0]` is a minimum and
  that pops deliver elements in sorted order; with the total order above
  the sorted list is the canonical representation of that behaviour, and
  no code of the module inspects any other positional property of the
  heap list for the operations modelled here.
* The Python identity test `x is y` between tickets is modelled as
  structural equality: distinct ticket objects of one queue always carry
  distinct `uid` values, so structural equality and identity agree.
* Exceptions (`IndexError`, `RuntimeError`) are modelled by explicit error
  results that carry the state as already mutated when the exception was
  raised, matching the in-place mutation of the Python objects.
* `sched_progress` performs Python `int / int` true division; it is
  modelled exactly over the rationals, with `none` standing for the
  `ZeroDivisionError` raised when `time == insert_time`.  (Floating point
  round-off of the Python result is not modelled.)
-/

/-- `Ticket` named tuple, tqueue.py lines 45 to 64: fields
`time`, `uid`, `actor`, `insert_time` in that order. -/
structure Ticket where
  time : Int
  uid : Nat
  actor : Nat
  insert_time : Int
deriving DecidableEq, Repr

/-- The strict comparison `heapq` applies to tickets: lexicographic on
`(time, uid)` (tuple comparison never reaches the later fields because
`uid` values are unique within one queue). -/
def Ticket.lt (a b : Ticket) : Prop :=
  a.time < b.time ∨ (a.time = b.time ∧ a.uid < b.uid)

instance (a b : Ticket) : Decidable (a.lt b) :=
  inferInstanceAs (Decidable (_ ∨ _))

/-- Reflexive closure of `Ticket.lt`: nondecreasing `time`, and
nondecreasing `uid` among equal times. -/
def Ticket.le (a b : Ticket) : Prop :=
  a.time < b.time ∨ (a.time = b.time ∧ a.uid ≤ b.uid)

instance (a b : Ticket) : Decidable (a.le b) :=
  inferInstanceAs (Decidable (_ ∨ _))

/-- `heapq.heappush` on the sorted-list model of the heap: insert keeping
the list sorted by `Ticket.lt`. -/
def heappush : List Ticket → Ticket → List Ticket
  | [], t => [t]
  | u :: rest, t => if t.lt u then t :: u :: rest else u :: heappush rest t

/-- `heapq.heapreplace` on the sorted-list model: pop the minimum
(`heap[0]`, the head), then push the new element.  Its call site in
`sched_reschedule` has already evaluated `heap[0]`, so the heap is
nonempty there. -/
def heapreplace (h : List Ticket) (t : Ticket) : List Ticket :=
  heappush h.tail t

/-- The whole mutable state of the module: the `TurnQueue.__init__` fields
`time`, `next_uid`, `heap` (lines 67 to 78) together with the
`sched_ticket` attribute of every `Schedulable` actor (line 162), as a map
from actor id to its current ticket reference (`none` = not scheduled). -/
structure TurnQueue where
  time : Int
  next_uid : Nat
  heap : List Ticket
  sched_ticket : Nat → Option Ticket

/-- `TurnQueue()` with its default arguments, and every actor in the
starting state `sched_ticket = None` set by `Schedulable.__init__`. -/
def initState : TurnQueue :=
  { time := 0, next_uid := 0, heap := [], sched_ticket := fun _ => none }

/-- The validity test of `TurnQueue.peek` line 103: a ticket is valid iff
it is (identical to) the current `sched_ticket` of its actor. -/
def isValid (s : TurnQueue) (t : Ticket) : Prop :=
  s.sched_ticket t.actor = some t

instance (s : TurnQueue) (t : Ticket) : Decidable (isValid s t) :=
  inferInstanceAs (Decidable (_ = _))

/-- The while loop of `TurnQueue.peek` (lines 103 to 105): repeatedly
`heappop` the heap minimum while it is stale.  Returns the heap left
behind and the first valid minimum; `none` models the `IndexError` raised
by `self.heap[0]` once the heap runs empty. -/
def peekLoop (s : TurnQueue) : List Ticket → List Ticket × Option Ticket
  | [] => ([], none)
  | t :: rest => if isValid s t then (t :: rest, some t) else peekLoop s rest

/-- `TurnQueue.peek` (lines 98 to 106).  The returned state keeps the
in-place mutation of the heap: stale entries dropped by the loop stay
dropped even when the call raises. -/
def TurnQueue.peek (s : TurnQueue) : TurnQueue × Option Ticket :=
  ((fun p => ({ s with heap := p.1 }, p.2)) (peekLoop s s.heap))

/-- `TurnQueue.__bool__` (lines 90 to 96): call peek, catch `IndexError`.
The heap mutation made by peek persists. -/
def TurnQueue.nonEmpty (s : TurnQueue) : TurnQueue × Bool :=
  ((fun p => (p.1, p.2.isSome)) s.peek)

/-- `Schedulable.__new_ticket` (lines 165 to 176):
`Ticket(time, next_uid, self, queue.time)`, then `next_uid += 1`. -/
def newTicket (s : TurnQueue) (a : Nat) (time : Int) : Ticket × TurnQueue :=
  (⟨time, s.next_uid, a, s.time⟩, { s with next_uid := s.next_uid + 1 })

/-- Assignment to one actor's `sched_ticket` attribute. -/
def setTicket (s : TurnQueue) (a : Nat) (v : Option Ticket) : TurnQueue :=
  { s with sched_ticket := fun b => if b = a then v else s.sched_ticket b }

/-- `Schedulable.sched_schedule` (lines 178 to 193): build a ticket for
time `queue.time + interval`, record it as current, push it on the heap.
The source performs no check that the actor was unscheduled; a previous
ticket is silently superseded (its docstring: the previous ticket will
become invalid). -/
def sched_schedule (s : TurnQueue) (a : Nat) (interval : Int) : TurnQueue :=
  ((fun p =>
      ((fun s1 => { s1 with heap := heappush s1.heap p.1 })
        (setTicket p.2 a (some p.1))))
    (newTicket s a (s.time + interval)))

/-- The Python exceptions raised by the modelled code paths. -/
inductive RunError where
  | indexError
  | runtimeError
deriving DecidableEq, Repr

/-- `Schedulable.sched_reschedule` (lines 195 to 216): evaluate
`self.sched_queue.heap[0]` (`IndexError` on an empty heap), raise
`RuntimeError` unless `self.sched_ticket` is that minimum, otherwise
install a fresh ticket and `heapreplace` it in.  On error the state is
unchanged because the check precedes every mutation. -/
def sched_reschedule (s : TurnQueue) (a : Nat) (interval : Int) :
    Except RunError TurnQueue :=
  match s.heap.head? with
  | none => .error .indexError
  | some top =>
    if s.sched_ticket a = some top then
      ((fun p =>
          ((fun s1 => Except.ok { s1 with heap := heapreplace s1.heap p.1 })
            (setTicket p.2 a (some p.1))))
        (newTicket s a (s.time + interval)))
    else .error .runtimeError

/-- Setting `self.sched_ticket = None`, the removal documented at
tqueue.py line 188 and used by the run-once actors of the tests. -/
def sched_clear (s : TurnQueue) (a : Nat) : TurnQueue :=
  setTicket s a none

/-- What a `sched_on_turn` override does before returning, as far as the
scheduler state can observe: reschedule once, reschedule twice (the
double-call the error message of `sched_reschedule` warns about), clear
the ticket, or return having done neither. -/
inductive HandlerAction where
  | reschedule (interval : Int)
  | rescheduleTwice (i1 i2 : Int)
  | clear
  | noop
deriving DecidableEq, Repr

/-- Run the modelled handler body for actor `a`.  A raise inside the
handler propagates together with the state as mutated so far. -/
def runHandler (s : TurnQueue) (a : Nat) :
    HandlerAction → Except (RunError × TurnQueue) TurnQueue
  | .reschedule i =>
    match sched_reschedule s a i with
    | .ok s1 => .ok s1
    | .error e => .error (e, s)
  | .rescheduleTwice i1 i2 =>
    match sched_reschedule s a i1 with
    | .error e => .error (e, s)
    | .ok s1 =>
      match sched_reschedule s1 a i2 with
      | .error e => .error (e, s1)
      | .ok s2 => .ok s2
  | .clear => .ok (sched_clear s a)
  | .noop => .ok s

/-- Outcome of `TurnQueue.next`: normal return, or an exception carrying
the state as mutated when it was raised together with the ticket that had
been handed to the handler (`none` when peek raised before any hand-off). -/
inductive NextResult where
  | ok (s : TurnQueue) (tk : Ticket)
  | err (e : RunError) (s : TurnQueue) (handed : Option Ticket)

/-- The state carried by a `NextResult`. -/
def NextResult.state : NextResult → TurnQueue
  | .ok s _ => s
  | .err _ s _ => s

/-- The ticket handed to a turn handler during the call, if any. -/
def NextResult.handedTicket : NextResult → Option Ticket
  | .ok _ tk => some tk
  | .err _ _ h => h

/-- Whether the call returned normally. -/
def NextResult.isOk : NextResult → Bool
  | .ok _ _ => true
  | .err _ _ _ => false

/-- `TurnQueue.next` (lines 108 to 122) for a handler whose body is the
given `HandlerAction`: peek (propagating its `IndexError`), unpack
`self.time = next_ticket.time`, run the actor's handler, then raise
`RuntimeError` if the actor still holds the very ticket just processed. -/
def TurnQueue.next (s : TurnQueue) (act : HandlerAction) : NextResult :=
  match s.peek with
  | (s1, none) => .err .indexError s1 none
  | (s1, some tk) =>
    match runHandler { s1 with time := tk.time } tk.actor act with
    | .error (e, s3) => .err e s3 (some tk)
    | .ok s3 =>
      if s3.sched_ticket tk.actor = some tk then
        .err .runtimeError s3 (some tk)
      else .ok s3 tk

/-- One externally driven operation on the system: an actor schedules
itself, an actor clears its ticket, or the driver calls `next` with the
popped actor's handler performing the given action. -/
inductive Op where
  | schedule (a : Nat) (interval : Int)
  | clear (a : Nat)
  | next (act : HandlerAction)

/-- Every interval a handler action uses is non-negative. -/
def HandlerAction.nonneg : HandlerAction → Bool
  | .reschedule i => decide (0 ≤ i)
  | .rescheduleTwice i1 i2 => decide (0 ≤ i1) && decide (0 ≤ i2)
  | .clear => true
  | .noop => true

/-- Every interval an operation uses is non-negative. -/
def Op.nonneg : Op → Bool
  | .schedule _ i => decide (0 ≤ i)
  | .clear _ => true
  | .next act => act.nonneg

/-- Drive one operation; exceptions behave as caught by the driver, which
continues from the state the exception left behind.  The second component
is the ticket handed to a handler during the operation, if any. -/
def runOp (s : TurnQueue) : Op → TurnQueue × Option Ticket
  | .schedule a i => (sched_schedule s a i, none)
  | .clear a => (sched_clear s a, none)
  | .next act =>
    match s.next act with
    | .ok s1 tk => (s1, some tk)
    | .err _ s1 handed => (s1, handed)

/-- Drive a sequence of operations, producing the final state and the
trace of tickets handed to handlers, in order. -/
def run (s : TurnQueue) : List Op → TurnQueue × List Ticket
  | [] => (s, [])
  | op :: ops =>
    ((fun p =>
        ((fun q => (q.1, p.2.toList ++ q.2)) (run p.1 ops)))
      (runOp s op))

/-- The most recently handed ticket after an operation whose hand-off is
`r`, given the previously handed ticket. -/
def lastAfter (r : Option Ticket) (last : Option Ticket) : Option Ticket :=
  match r with
  | some tk => some tk
  | none => last

/-- `Schedulable.sched_time_passed` (lines 239 to 243). -/
def sched_time_passed (s : TurnQueue) (tk : Ticket) : Int :=
  s.time - tk.insert_time

/-- `Schedulable.sched_time_left` (lines 245 to 249). -/
def sched_time_left (s : TurnQueue) (tk : Ticket) : Int :=
  tk.time - s.time

/-- `Schedulable.sched_progress` (lines 251 to 257): Python true division
of two ints, exact over the rationals; `none` models the
`ZeroDivisionError` raised exactly when `time == insert_time`. -/
def sched_progress (s : TurnQueue) (tk : Ticket) : Option ℚ :=
  if tk.time = tk.insert_time then none
  else some ((sched_time_passed s tk : ℚ) / ((tk.time - tk.insert_time : Int) : ℚ))

/-- Actor-field coherence: every ticket held by an actor names that actor.
True of every reachable state because `sched_schedule` and
`sched_reschedule` only ever store tickets built with `self`. -/
def Wf (s : TurnQueue) : Prop :=
  ∀ a t, s.sched_ticket a = some t → t.actor = a

/-- Invariant carried through every run, relative to the most recently
handed ticket `last`: the heap is sorted, heap uids are below the counter,
heap times are at or after the clock, and everything still in the heap
sorts at or after the last handed ticket. -/
structure TraceInv (s : TurnQueue) (last : Option Ticket) : Prop where
  sorted : s.heap.Pairwise Ticket.le
  uid_lt : ∀ t ∈ s.heap, t.uid < s.next_uid
  time_le : ∀ t ∈ s.heap, s.time ≤ t.time
  last_time : ∀ l, last = some l → l.time ≤ s.time
  last_uid : ∀ l, last = some l → l.uid < s.next_uid
  heap_ge : ∀ l, last = some l → ∀ t ∈ s.heap, l.le t

theorem Ticket.le_refl (a : Ticket) : a.le a := by
  simp [Ticket.le]

theorem Ticket.le_trans {a b c : Ticket} (h1 : a.le b) (h2 : b.le c) : a.le c := by
  unfold Ticket.le at *
  omega

theorem Ticket.lt_le {a b : Ticket} (h : a.lt b) : a.le b := by
  unfold Ticket.lt at h
  unfold Ticket.le
  omega

theorem Ticket.le_of_not_lt {a b : Ticket} (h : ¬ a.lt b) : b.le a := by
  unfold Ticket.lt at h
  unfold Ticket.le
  omega

theorem mem_heappush {h : List Ticket} {t u : Ticket} :
    u ∈ heappush h t ↔ u = t ∨ u ∈ h := by
  induction h with
  | nil => simp [heappush]
  | cons v rest ih =>
    simp only [heappush]
    split
    · simp [List.mem_cons]
    · simp only [List.mem_cons, ih]
      tauto

theorem heappush_pairwise {h : List Ticket} {t : Ticket}
    (hs : h.Pairwise Ticket.le) : (heappush h t).Pairwise Ticket.le := by
  induction h with
  | nil => simp [heappush]
  | cons u rest ih =>
    rcases List.pairwise_cons.mp hs with ⟨hu, hrest⟩
    simp only [heappush]
    split
    · rename_i hlt
      refine List.pairwise_cons.mpr ⟨?_, hs⟩
      intro b hb
      rcases List.mem_cons.mp hb with rfl | hb2
      · exact Ticket.lt_le hlt
      · exact Ticket.le_trans (Ticket.lt_le hlt) (hu b hb2)
    · rename_i hlt
      refine List.pairwise_cons.mpr ⟨?_, ih hrest⟩
      intro b hb
      rcases mem_heappush.mp hb with rfl | hb2
      · exact Ticket.le_of_not_lt hlt
      · exact hu b hb2

theorem peekLoop_subset {s : TurnQueue} {h : List Ticket} :
    ∀ t ∈ (peekLoop s h).1, t ∈ h := by
  induction h with
  | nil => simp [peekLoop]
  | cons u rest ih =>
    simp only [peekLoop]
    split
    · intro t ht
      exact ht
    · intro t ht
      exact List.mem_cons_of_mem u (ih t ht)

theorem peekLoop_pairwise {s : TurnQueue} {h : List Ticket}
    (hs : h.Pairwise Ticket.le) : (peekLoop s h).1.Pairwise Ticket.le := by
  induction h with
  | nil => simp [peekLoop]
  | cons u rest ih =>
    simp only [peekLoop]
    split
    · exact hs
    · exact ih (List.Pairwise.of_cons hs)

theorem peekLoop_none_iff {s : TurnQueue} {h : List Ticket} :
    (peekLoop s h).2 = none ↔ ∀ t ∈ h, ¬ isValid s t := by
  induction h with
  | nil => simp [peekLoop]
  | cons u rest ih =>
    simp only [peekLoop]
    split
    · rename_i hv
      simp only [List.mem_cons]
      constructor
      · intro hc
        exact absurd hc (by simp)
      · intro hall
        exact absurd hv (hall u (Or.inl rfl))
    · rename_i hv
      simp only [List.mem_cons, ih]
      constructor
      · intro hall t ht
        rcases ht with rfl | ht2
        · exact hv
        · exact hall t ht2
      · intro hall t ht
        exact hall t (Or.inr ht)

theorem peekLoop_none_heap {s : TurnQueue} {h : List Ticket}
    (hn : (peekLoop s h).2 = none) : (peekLoop s h).1 = [] := by
  induction h with
  | nil => simp [peekLoop]
  | cons u rest ih =>
    simp only [peekLoop] at hn ⊢
    split at hn
    · exact absurd hn (by simp)
    · rename_i hv
      simp only [if_neg hv]
      exact ih hn

theorem peekLoop_some {s : TurnQueue} {h : List Ticket} {tk : Ticket}
    (hk : (peekLoop s h).2 = some tk) :
    (peekLoop s h).1.head? = some tk ∧ isValid s tk := by
  induction h with
  | nil => simp [peekLoop] at hk
  | cons u rest ih =>
    simp only [peekLoop] at hk ⊢
    split at hk
    · rename_i hv
      simp only [Option.some.injEq] at hk
      subst hk
      simp only [if_pos hv, List.head?_cons]
      exact ⟨by trivial, hv⟩
    · rename_i hv
      simp only [if_neg hv]
      exact ih hk

theorem peekLoop_valid_mem {s : TurnQueue} {h : List Ticket} {t : Ticket}
    (hv : isValid s t) : t ∈ h ↔ t ∈ (peekLoop s h).1 := by
  constructor
  · intro ht
    induction h with
    | nil => simp at ht
    | cons u rest ih =>
      simp only [peekLoop]
      split
      · exact ht
      · rename_i hvu
        rcases List.mem_cons.mp ht with rfl | ht2
        · exact absurd hv hvu
        · exact ih ht2
  · exact fun ht => peekLoop_subset t ht

theorem peek_def (s : TurnQueue) :
    s.peek = ({ s with heap := (peekLoop s s.heap).1 }, (peekLoop s s.heap).2) := rfl

theorem Ticket.le_time {a b : Ticket} (h : a.le b) : a.time ≤ b.time := by
  unfold Ticket.le at h
  omega

theorem sched_schedule_def (s : TurnQueue) (a : Nat) (i : Int) :
    sched_schedule s a i =
      { time := s.time, next_uid := s.next_uid + 1,
        heap := heappush s.heap ⟨s.time + i, s.next_uid, a, s.time⟩,
        sched_ticket := fun b =>
          if b = a then some ⟨s.time + i, s.next_uid, a, s.time⟩
          else s.sched_ticket b } := rfl

theorem sched_clear_def (s : TurnQueue) (a : Nat) :
    sched_clear s a =
      { time := s.time, next_uid := s.next_uid, heap := s.heap,
        sched_ticket := fun b => if b = a then none else s.sched_ticket b } := rfl

theorem sched_reschedule_nil {s : TurnQueue} {a : Nat} {i : Int}
    (hh : s.heap = []) : sched_reschedule s a i = .error .indexError := by
  simp [sched_reschedule, hh]

theorem sched_reschedule_stale {s : TurnQueue} {a : Nat} {i : Int} {top : Ticket}
    (hh : s.heap.head? = some top) (hr : s.sched_ticket a ≠ some top) :
    sched_reschedule s a i = .error .runtimeError := by
  simp [sched_reschedule, hh, hr]

theorem sched_reschedule_ok {s : TurnQueue} {a : Nat} {i : Int} {top : Ticket}
    (hh : s.heap.head? = some top) (hr : s.sched_ticket a = some top) :
    sched_reschedule s a i =
      .ok { time := s.time, next_uid := s.next_uid + 1,
            heap := heappush s.heap.tail ⟨s.time + i, s.next_uid, a, s.time⟩,
            sched_ticket := fun b =>
              if b = a then some ⟨s.time + i, s.next_uid, a, s.time⟩
              else s.sched_ticket b } := by
  simp [sched_reschedule, hh, hr, heapreplace, setTicket, newTicket]

theorem traceInv_schedule {s : TurnQueue} {last : Option Ticket} {a : Nat}
    {i : Int} (h : TraceInv s last) (hi : 0 ≤ i) :
    TraceInv (sched_schedule s a i) last := by
  rw [sched_schedule_def]
  refine ⟨heappush_pairwise h.sorted, ?_, ?_, ?_, ?_, ?_⟩
  · intro t ht
    rcases mem_heappush.mp ht with rfl | ht2
    · simp
    · have h2 := h.uid_lt t ht2
      change t.uid < s.next_uid + 1
      omega
  · intro t ht
    rcases mem_heappush.mp ht with rfl | ht2
    · simpa using hi
    · exact h.time_le t ht2
  · intro l hl
    exact h.last_time l hl
  · intro l hl
    have h2 := h.last_uid l hl
    change l.uid < s.next_uid + 1
    omega
  · intro l hl t ht
    rcases mem_heappush.mp ht with rfl | ht2
    · have h1 := h.last_time l hl
      have h2 := h.last_uid l hl
      unfold Ticket.le
      simp only
      omega
    · exact h.heap_ge l hl t ht2

theorem traceInv_clear {s : TurnQueue} {last : Option Ticket} {a : Nat}
    (h : TraceInv s last) : TraceInv (sched_clear s a) last :=
  ⟨h.sorted, h.uid_lt, h.time_le, h.last_time, h.last_uid, h.heap_ge⟩

theorem traceInv_reschedule {s s2 : TurnQueue} {last : Option Ticket} {a : Nat}
    {i : Int} (h : TraceInv s last) (hi : 0 ≤ i)
    (hok : sched_reschedule s a i = .ok s2) :
    TraceInv s2 last ∧ s2.time = s.time := by
  cases hh : s.heap with
  | nil =>
    rw [sched_reschedule_nil hh] at hok
    exact absurd hok (by simp)
  | cons top tl =>
    have hh0 : s.heap.head? = some top := by rw [hh]; rfl
    by_cases hr : s.sched_ticket a = some top
    · rw [sched_reschedule_ok hh0 hr] at hok
      injection hok with hs2
      subst hs2
      have htl : s.heap.tail = tl := by rw [hh]; rfl
      have hsortl : tl.Pairwise Ticket.le := by
        have := h.sorted
        rw [hh] at this
        exact List.Pairwise.of_cons this
      constructor
      · refine ⟨?_, ?_, ?_, ?_, ?_, ?_⟩
        · simp only [htl]
          exact heappush_pairwise hsortl
        · intro t ht
          simp only [htl] at ht
          rcases mem_heappush.mp ht with rfl | ht2
          · simp
          · have hts : t ∈ s.heap := by rw [hh]; exact List.mem_cons_of_mem top ht2
            have h2 := h.uid_lt t hts
            change t.uid < s.next_uid + 1
            omega
        · intro t ht
          simp only [htl] at ht
          rcases mem_heappush.mp ht with rfl | ht2
          · simpa using hi
          · have : t ∈ s.heap := by rw [hh]; exact List.mem_cons_of_mem top ht2
            exact h.time_le t this
        · intro l hl
          exact h.last_time l hl
        · intro l hl
          have h2 := h.last_uid l hl
          change l.uid < s.next_uid + 1
          omega
        · intro l hl t ht
          simp only [htl] at ht
          rcases mem_heappush.mp ht with rfl | ht2
          · have h1 := h.last_time l hl
            have h2 := h.last_uid l hl
            unfold Ticket.le
            simp only
            omega
          · have : t ∈ s.heap := by rw [hh]; exact List.mem_cons_of_mem top ht2
            exact h.heap_ge l hl t this
      · rfl
    · rw [sched_reschedule_stale hh0 hr] at hok
      exact absurd hok (by simp)

theorem traceInv_peek {s : TurnQueue} {last : Option Ticket}
    (h : TraceInv s last) : TraceInv (s.peek).1 last := by
  rw [peek_def]
  refine ⟨peekLoop_pairwise h.sorted, ?_, ?_, ?_, ?_, ?_⟩
  · intro t ht
    exact h.uid_lt t (peekLoop_subset t ht)
  · intro t ht
    exact h.time_le t (peekLoop_subset t ht)
  · exact h.last_time
  · exact h.last_uid
  · intro l hl t ht
    exact h.heap_ge l hl t (peekLoop_subset t ht)

theorem peek_some_facts {s s1 : TurnQueue} {tk : Ticket}
    (hp : s.peek = (s1, some tk)) :
    s1 = { s with heap := (peekLoop s s.heap).1 } ∧
      s1.heap.head? = some tk ∧ isValid s tk ∧ tk ∈ s.heap := by
  rw [peek_def] at hp
  have h1 : s1 = { s with heap := (peekLoop s s.heap).1 } := by
    have h2 := congrArg Prod.fst hp
    simp at h2
    exact h2.symm
  have h2 : (peekLoop s s.heap).2 = some tk := by
    have h3 := congrArg Prod.snd hp
    simpa using h3
  rcases peekLoop_some h2 with ⟨hhd, hv⟩
  have hmem : tk ∈ (peekLoop s s.heap).1 := by
    cases hq : (peekLoop s s.heap).1 with
    | nil =>
      rw [hq] at hhd
      simp at hhd
    | cons u rest =>
      rw [hq] at hhd
      simp at hhd
      subst hhd
      exact List.mem_cons_self u rest
  refine ⟨h1, ?_, hv, peekLoop_subset tk hmem⟩
  rw [h1]
  exact hhd

theorem traceInv_commit {s s1 : TurnQueue} {last : Option Ticket} {tk : Ticket}
    (h : TraceInv s last) (hp : s.peek = (s1, some tk)) :
    TraceInv { s1 with time := tk.time } (some tk) ∧ s.time ≤ tk.time ∧
      (∀ l, last = some l → l.le tk) := by
  rcases peek_some_facts hp with ⟨hs1, hhd, hv, hmem⟩
  have hpi := traceInv_peek h
  rw [hp] at hpi
  have hhead_le : ∀ t ∈ s1.heap, tk.le t := by
    intro t ht
    cases hq : s1.heap with
    | nil =>
      rw [hq] at ht
      simp at ht
    | cons u rest =>
      rw [hq] at hhd
      simp at hhd
      subst hhd
      rw [hq] at ht
      rcases List.mem_cons.mp ht with rfl | ht2
      · exact Ticket.le_refl t
      · have hpw := hpi.sorted
        rw [hq] at hpw
        exact (List.pairwise_cons.mp hpw).1 t ht2
  refine ⟨⟨?_, ?_, ?_, ?_, ?_, ?_⟩, ?_, ?_⟩
  · exact hpi.sorted
  · intro t ht
    exact hpi.uid_lt t ht
  · intro t ht
    exact Ticket.le_time (hhead_le t ht)
  · intro l hl
    injection hl with hl2
    subst hl2
    exact le_refl _
  · intro l hl
    injection hl with hl2
    subst hl2
    have h2 := h.uid_lt tk hmem
    rw [hs1]
    exact h2
  · intro l hl t ht
    injection hl with hl2
    subst hl2
    exact hhead_le t ht
  · exact h.time_le tk hmem
  · intro l hl
    exact h.heap_ge l hl tk hmem

theorem traceInv_runHandler {s2 : TurnQueue} {last : Option Ticket} {a : Nat}
    {act : HandlerAction} (h : TraceInv s2 last) (ha : act.nonneg = true) :
    (∀ s3, runHandler s2 a act = .ok s3 → TraceInv s3 last ∧ s3.time = s2.time) ∧
      (∀ e s3, runHandler s2 a act = .error (e, s3) →
        TraceInv s3 last ∧ s3.time = s2.time) := by
  cases act with
  | reschedule i =>
    have hi : 0 ≤ i := by simpa [HandlerAction.nonneg] using ha
    constructor
    · intro s3 hok
      simp only [runHandler] at hok
      cases hr : sched_reschedule s2 a i with
      | ok s4 =>
        rw [hr] at hok
        simp at hok
        subst hok
        exact traceInv_reschedule h hi hr
      | error e =>
        rw [hr] at hok
        simp at hok
    · intro e s3 herr
      simp only [runHandler] at herr
      cases hr : sched_reschedule s2 a i with
      | ok s4 =>
        rw [hr] at herr
        simp at herr
      | error e2 =>
        rw [hr] at herr
        simp at herr
        exact ⟨herr.2 ▸ h, by rw [herr.2]⟩
  | rescheduleTwice i1 i2 =>
    have hi : 0 ≤ i1 ∧ 0 ≤ i2 := by simpa [HandlerAction.nonneg] using ha
    constructor
    · intro s3 hok
      simp only [runHandler] at hok
      cases hr1 : sched_reschedule s2 a i1 with
      | ok s4 =>
        rw [hr1] at hok
        simp only at hok
        obtain ⟨h4, ht4⟩ := traceInv_reschedule h hi.1 hr1
        cases hr2 : sched_reschedule s4 a i2 with
        | ok s5 =>
          rw [hr2] at hok
          simp at hok
          subst hok
          obtain ⟨h5, ht5⟩ := traceInv_reschedule h4 hi.2 hr2
          exact ⟨h5, by rw [ht5, ht4]⟩
        | error e =>
          rw [hr2] at hok
          simp at hok
      | error e =>
        rw [hr1] at hok
        simp at hok
    · intro e s3 herr
      simp only [runHandler] at herr
      cases hr1 : sched_reschedule s2 a i1 with
      | ok s4 =>
        rw [hr1] at herr
        simp only at herr
        obtain ⟨h4, ht4⟩ := traceInv_reschedule h hi.1 hr1
        cases hr2 : sched_reschedule s4 a i2 with
        | ok s5 =>
          rw [hr2] at herr
          simp at herr
        | error e2 =>
          rw [hr2] at herr
          simp at herr
          exact ⟨herr.2 ▸ h4, by rw [← herr.2]; exact ht4⟩
      | error e2 =>
        rw [hr1] at herr
        simp at herr
        exact ⟨herr.2 ▸ h, by rw [herr.2]⟩
  | clear =>
    constructor
    · intro s3 hok
      have h2 : sched_clear s2 a = s3 := by simpa [runHandler] using hok
      subst h2
      exact ⟨traceInv_clear h, rfl⟩
    · intro e s3 herr
      simp [runHandler] at herr
  | noop =>
    constructor
    · intro s3 hok
      have h2 : s2 = s3 := by simpa [runHandler] using hok
      subst h2
      exact ⟨h, rfl⟩
    · intro e s3 herr
      simp [runHandler] at herr

theorem peek_fst_fields {s s1 : TurnQueue} {r : Option Ticket}
    (hp : s.peek = (s1, r)) :
    s1.time = s.time ∧ s1.next_uid = s.next_uid ∧
      s1.sched_ticket = s.sched_ticket := by
  rw [peek_def] at hp
  have h1 : s1 = { s with heap := (peekLoop s s.heap).1 } := by
    have h2 := congrArg Prod.fst hp
    simpa using h2.symm
  rw [h1]
  exact ⟨rfl, rfl, rfl⟩

theorem runOp_step {s : TurnQueue} {last : Option Ticket} {op : Op}
    (hop : op.nonneg = true) (h : TraceInv s last) :
    TraceInv (runOp s op).1 (lastAfter (runOp s op).2 last) ∧
      s.time ≤ (runOp s op).1.time ∧
      (∀ tk, (runOp s op).2 = some tk → ∀ l, last = some l → l.le tk) := by
  cases op with
  | schedule a i =>
    have hi : 0 ≤ i := by simpa [Op.nonneg] using hop
    refine ⟨traceInv_schedule h hi, le_refl _, ?_⟩
    intro tk hc
    simp [runOp] at hc
  | clear a =>
    refine ⟨traceInv_clear h, le_refl _, ?_⟩
    intro tk hc
    simp [runOp] at hc
  | next act =>
    have ha : act.nonneg = true := by simpa [Op.nonneg] using hop
    rcases hp : s.peek with ⟨s1, r⟩
    cases r with
    | none =>
      have hnext : s.next act = .err .indexError s1 none := by
        simp only [TurnQueue.next, hp]
      have hro : runOp s (.next act) = (s1, none) := by
        simp [runOp, hnext]
      rw [hro]
      have hti := traceInv_peek h
      rw [hp] at hti
      refine ⟨hti, ?_, ?_⟩
      · rw [(peek_fst_fields hp).1]
      · intro tk hc
        simp at hc
    | some tk =>
      obtain ⟨hinv2, htle, hlastle⟩ := traceInv_commit h hp
      have hrh := @traceInv_runHandler _ _ tk.actor act hinv2 ha
      cases hr : runHandler { s1 with time := tk.time } tk.actor act with
      | ok s3 =>
        obtain ⟨h3, ht3⟩ := hrh.1 s3 hr
        have ht3t : s3.time = tk.time := ht3
        by_cases hkeep : s3.sched_ticket tk.actor = some tk
        · have hnext : s.next act = .err .runtimeError s3 (some tk) := by
            simp only [TurnQueue.next, hp, hr, if_pos hkeep]
          have hro : runOp s (.next act) = (s3, some tk) := by
            simp [runOp, hnext]
          rw [hro]
          refine ⟨h3, ?_, ?_⟩
          · rw [ht3t]
            exact htle
          · intro tk2 hc l hl
            injection hc with hc2
            subst hc2
            exact hlastle l hl
        · have hnext : s.next act = .ok s3 tk := by
            simp only [TurnQueue.next, hp, hr, if_neg hkeep]
          have hro : runOp s (.next act) = (s3, some tk) := by
            simp [runOp, hnext]
          rw [hro]
          refine ⟨h3, ?_, ?_⟩
          · rw [ht3t]
            exact htle
          · intro tk2 hc l hl
            injection hc with hc2
            subst hc2
            exact hlastle l hl
      | error p =>
        rcases p with ⟨e, s3⟩
        obtain ⟨h3, ht3⟩ := hrh.2 e s3 hr
        have ht3t : s3.time = tk.time := ht3
        have hnext : s.next act = .err e s3 (some tk) := by
          simp only [TurnQueue.next, hp, hr]
        have hro : runOp s (.next act) = (s3, some tk) := by
          simp [runOp, hnext]
        rw [hro]
        refine ⟨h3, ?_, ?_⟩
        · rw [ht3t]
          exact htle
        · intro tk2 hc l hl
          injection hc with hc2
          subst hc2
          exact hlastle l hl

theorem traceInv_init : TraceInv initState none := by
  refine ⟨?_, ?_, ?_, ?_, ?_, ?_⟩ <;> simp [initState]

theorem run_facts {s : TurnQueue} {last : Option Ticket} {ops : List Op}
    (hops : ops.all Op.nonneg = true) (h : TraceInv s last) :
    s.time ≤ (run s ops).1.time ∧
      (run s ops).2.Pairwise Ticket.le ∧
      (∀ l, last = some l → ∀ t ∈ (run s ops).2, l.le t) := by
  induction ops generalizing s last with
  | nil =>
    simp [run]
  | cons op ops ih =>
    simp only [List.all_cons, Bool.and_eq_true] at hops
    obtain ⟨hop, hops2⟩ := hops
    obtain ⟨hstep, htime, hhand⟩ := runOp_step hop h
    rcases hro : runOp s op with ⟨s4, r⟩
    rw [hro] at hstep htime hhand
    obtain ⟨ihtime, ihpw, ihlast⟩ := ih hops2 hstep
    have hrun : run s (op :: ops) = ((run s4 ops).1, r.toList ++ (run s4 ops).2) := by
      simp [run, hro]
    rw [hrun]
    refine ⟨le_trans htime ihtime, ?_, ?_⟩
    · cases r with
      | none =>
        simpa using ihpw
      | some tk =>
        simp only [Option.toList_some, List.singleton_append]
        refine List.pairwise_cons.mpr ⟨?_, ihpw⟩
        intro t ht
        exact ihlast tk rfl t ht
    · intro l hl t ht
      cases r with
      | none =>
        simp only [Option.toList_none, List.nil_append] at ht
        exact ihlast l hl t ht
      | some tk =>
        simp only [Option.toList_some, List.singleton_append, List.mem_cons] at ht
        rcases ht with rfl | ht2
        · exact hhand t rfl l hl
        · exact Ticket.le_trans (hhand tk rfl l hl) (ihlast tk rfl t ht2)

theorem sched_reschedule_time {s s2 : TurnQueue} {a : Nat} {i : Int}
    (hok : sched_reschedule s a i = .ok s2) :
    s2.time = s.time ∧ s2.next_uid = s.next_uid + 1 ∧
      s2.sched_ticket = fun b =>
        if b = a then some ⟨s.time + i, s.next_uid, a, s.time⟩
        else s.sched_ticket b := by
  cases hh : s.heap with
  | nil =>
    rw [sched_reschedule_nil hh] at hok
    exact absurd hok (by simp)
  | cons top tl =>
    have hh0 : s.heap.head? = some top := by rw [hh]; rfl
    by_cases hr : s.sched_ticket a = some top
    · rw [sched_reschedule_ok hh0 hr] at hok
      injection hok with hs2
      subst hs2
      exact ⟨rfl, rfl, rfl⟩
    · rw [sched_reschedule_stale hh0 hr] at hok
      exact absurd hok (by simp)

theorem runHandler_time {s : TurnQueue} {a : Nat} {act : HandlerAction} :
    (∀ s3, runHandler s a act = .ok s3 → s3.time = s.time) ∧
      (∀ e s3, runHandler s a act = .error (e, s3) → s3.time = s.time) := by
  cases act with
  | reschedule i =>
    constructor
    · intro s3 hok
      simp only [runHandler] at hok
      cases hr : sched_reschedule s a i with
      | ok s4 =>
        rw [hr] at hok
        simp at hok
        subst hok
        exact (sched_reschedule_time hr).1
      | error e =>
        rw [hr] at hok
        simp at hok
    · intro e s3 herr
      simp only [runHandler] at herr
      cases hr : sched_reschedule s a i with
      | ok s4 =>
        rw [hr] at herr
        simp at herr
      | error e2 =>
        rw [hr] at herr
        simp at herr
        rw [← herr.2]
  | rescheduleTwice i1 i2 =>
    constructor
    · intro s3 hok
      simp only [runHandler] at hok
      cases hr1 : sched_reschedule s a i1 with
      | ok s4 =>
        rw [hr1] at hok
        simp only at hok
        cases hr2 : sched_reschedule s4 a i2 with
        | ok s5 =>
          rw [hr2] at hok
          simp at hok
          subst hok
          rw [(sched_reschedule_time hr2).1, (sched_reschedule_time hr1).1]
        | error e =>
          rw [hr2] at hok
          simp at hok
      | error e =>
        rw [hr1] at hok
        simp at hok
    · intro e s3 herr
      simp only [runHandler] at herr
      cases hr1 : sched_reschedule s a i1 with
      | ok s4 =>
        rw [hr1] at herr
        simp only at herr
        cases hr2 : sched_reschedule s4 a i2 with
        | ok s5 =>
          rw [hr2] at herr
          simp at herr
        | error e2 =>
          rw [hr2] at herr
          simp at herr
          rw [← herr.2]
          exact (sched_reschedule_time hr1).1
      | error e2 =>
        rw [hr1] at herr
        simp at herr
        rw [← herr.2]
  | clear =>
    constructor
    · intro s3 hok
      have h2 : sched_clear s a = s3 := by simpa [runHandler] using hok
      subst h2
      rfl
    · intro e s3 herr
      simp [runHandler] at herr
  | noop =>
    constructor
    · intro s3 hok
      have h2 : s = s3 := by simpa [runHandler] using hok
      subst h2
      rfl
    · intro e s3 herr
      simp [runHandler] at herr

theorem next_handed_time {s : TurnQueue} {act : HandlerAction} {tk : Ticket}
    (h : (s.next act).handedTicket = some tk) :
    (s.next act).state.time = tk.time := by
  rcases hp : s.peek with ⟨s1, r⟩
  cases r with
  | none =>
    have hnext : s.next act = .err .indexError s1 none := by
      simp only [TurnQueue.next, hp]
    rw [hnext] at h
    simp [NextResult.handedTicket] at h
  | some tk2 =>
    cases hr : runHandler { s1 with time := tk2.time } tk2.actor act with
    | ok s3 =>
      have ht3 : s3.time = tk2.time :=
        (runHandler_time (s := { s1 with time := tk2.time })).1 s3 hr
      by_cases hkeep : s3.sched_ticket tk2.actor = some tk2
      · have hnext : s.next act = .err .runtimeError s3 (some tk2) := by
          simp only [TurnQueue.next, hp, hr, if_pos hkeep]
        rw [hnext] at h ⊢
        simp [NextResult.handedTicket] at h
        subst h
        exact ht3
      · have hnext : s.next act = .ok s3 tk2 := by
          simp only [TurnQueue.next, hp, hr, if_neg hkeep]
        rw [hnext] at h ⊢
        simp [NextResult.handedTicket] at h
        subst h
        exact ht3
    | error p =>
      rcases p with ⟨e, s3⟩
      have ht3 : s3.time = tk2.time :=
        (runHandler_time (s := { s1 with time := tk2.time })).2 e s3 hr
      have hnext : s.next act = .err e s3 (some tk2) := by
        simp only [TurnQueue.next, hp, hr]
      rw [hnext] at h ⊢
      simp [NextResult.handedTicket] at h
      subst h
      exact ht3

theorem stale_schedule {s : TurnQueue} {a : Nat} {i : Int} {t0 : Ticket}
    (hu : t0.uid < s.next_uid) (hst : s.sched_ticket t0.actor ≠ some t0) :
    t0.uid < (sched_schedule s a i).next_uid ∧
      (sched_schedule s a i).sched_ticket t0.actor ≠ some t0 := by
  rw [sched_schedule_def]
  constructor
  · change t0.uid < s.next_uid + 1
    omega
  · change (if t0.actor = a
        then some (⟨s.time + i, s.next_uid, a, s.time⟩ : Ticket)
        else s.sched_ticket t0.actor) ≠ some t0
    by_cases hb : t0.actor = a
    · rw [if_pos hb]
      intro hc
      injection hc with hc2
      rw [← hc2] at hu
      simp at hu
    · rw [if_neg hb]
      exact hst

theorem stale_reschedule {s s2 : TurnQueue} {a : Nat} {i : Int} {t0 : Ticket}
    (hu : t0.uid < s.next_uid) (hst : s.sched_ticket t0.actor ≠ some t0)
    (hok : sched_reschedule s a i = .ok s2) :
    t0.uid < s2.next_uid ∧ s2.sched_ticket t0.actor ≠ some t0 := by
  obtain ⟨ht, hn, hr⟩ := sched_reschedule_time hok
  constructor
  · omega
  · rw [hr]
    change (if t0.actor = a
        then some (⟨s.time + i, s.next_uid, a, s.time⟩ : Ticket)
        else s.sched_ticket t0.actor) ≠ some t0
    by_cases hb : t0.actor = a
    · rw [if_pos hb]
      intro hc
      injection hc with hc2
      rw [← hc2] at hu
      simp at hu
    · rw [if_neg hb]
      exact hst

theorem stale_clear {s : TurnQueue} {a : Nat} {t0 : Ticket}
    (hu : t0.uid < s.next_uid) (hst : s.sched_ticket t0.actor ≠ some t0) :
    t0.uid < (sched_clear s a).next_uid ∧
      (sched_clear s a).sched_ticket t0.actor ≠ some t0 := by
  rw [sched_clear_def]
  refine ⟨hu, ?_⟩
  change (if t0.actor = a then none else s.sched_ticket t0.actor) ≠ some t0
  by_cases hb : t0.actor = a
  · rw [if_pos hb]
    simp
  · rw [if_neg hb]
    exact hst

theorem stale_runHandler {s : TurnQueue} {a : Nat} {act : HandlerAction}
    {t0 : Ticket} (hu : t0.uid < s.next_uid)
    (hst : s.sched_ticket t0.actor ≠ some t0) :
    (∀ s3, runHandler s a act = .ok s3 →
      t0.uid < s3.next_uid ∧ s3.sched_ticket t0.actor ≠ some t0) ∧
      (∀ e s3, runHandler s a act = .error (e, s3) →
        t0.uid < s3.next_uid ∧ s3.sched_ticket t0.actor ≠ some t0) := by
  cases act with
  | reschedule i =>
    constructor
    · intro s3 hok
      simp only [runHandler] at hok
      cases hr : sched_reschedule s a i with
      | ok s4 =>
        rw [hr] at hok
        simp at hok
        subst hok
        exact stale_reschedule hu hst hr
      | error e =>
        rw [hr] at hok
        simp at hok
    · intro e s3 herr
      simp only [runHandler] at herr
      cases hr : sched_reschedule s a i with
      | ok s4 =>
        rw [hr] at herr
        simp at herr
      | error e2 =>
        rw [hr] at herr
        simp at herr
        rw [← herr.2]
        exact ⟨hu, hst⟩
  | rescheduleTwice i1 i2 =>
    constructor
    · intro s3 hok
      simp only [runHandler] at hok
      cases hr1 : sched_reschedule s a i1 with
      | ok s4 =>
        rw [hr1] at hok
        simp only at hok
        obtain ⟨hu4, hst4⟩ := stale_reschedule hu hst hr1
        cases hr2 : sched_reschedule s4 a i2 with
        | ok s5 =>
          rw [hr2] at hok
          simp at hok
          subst hok
          exact stale_reschedule hu4 hst4 hr2
        | error e =>
          rw [hr2] at hok
          simp at hok
      | error e =>
        rw [hr1] at hok
        simp at hok
    · intro e s3 herr
      simp only [runHandler] at herr
      cases hr1 : sched_reschedule s a i1 with
      | ok s4 =>
        rw [hr1] at herr
        simp only at herr
        obtain ⟨hu4, hst4⟩ := stale_reschedule hu hst hr1
        cases hr2 : sched_reschedule s4 a i2 with
        | ok s5 =>
          rw [hr2] at herr
          simp at herr
        | error e2 =>
          rw [hr2] at herr
          simp at herr
          rw [← herr.2]
          exact ⟨hu4, hst4⟩
      | error e2 =>
        rw [hr1] at herr
        simp at herr
        rw [← herr.2]
        exact ⟨hu, hst⟩
  | clear =>
    constructor
    · intro s3 hok
      have h2 : sched_clear s a = s3 := by simpa [runHandler] using hok
      subst h2
      exact stale_clear hu hst
    · intro e s3 herr
      simp [runHandler] at herr
  | noop =>
    constructor
    · intro s3 hok
      have h2 : s = s3 := by simpa [runHandler] using hok
      subst h2
      exact ⟨hu, hst⟩
    · intro e s3 herr
      simp [runHandler] at herr

theorem stale_runOp {s : TurnQueue} {op : Op} {t0 : Ticket}
    (hu : t0.uid < s.next_uid) (hst : s.sched_ticket t0.actor ≠ some t0) :
    t0.uid < (runOp s op).1.next_uid ∧
      (runOp s op).1.sched_ticket t0.actor ≠ some t0 ∧
      (runOp s op).2 ≠ some t0 := by
  cases op with
  | schedule a i =>
    obtain ⟨h1, h2⟩ := stale_schedule (a := a) (i := i) hu hst
    exact ⟨h1, h2, by simp [runOp]⟩
  | clear a =>
    obtain ⟨h1, h2⟩ := stale_clear (a := a) hu hst
    exact ⟨h1, h2, by simp [runOp]⟩
  | next act =>
    rcases hp : s.peek with ⟨s1, r⟩
    obtain ⟨hpt, hpu, hpr⟩ := peek_fst_fields hp
    have hu1 : t0.uid < s1.next_uid := by rw [hpu]; exact hu
    have hst1 : s1.sched_ticket t0.actor ≠ some t0 := by rw [hpr]; exact hst
    cases r with
    | none =>
      have hnext : s.next act = .err .indexError s1 none := by
        simp only [TurnQueue.next, hp]
      have hro : runOp s (.next act) = (s1, none) := by
        simp [runOp, hnext]
      rw [hro]
      exact ⟨hu1, hst1, by simp⟩
    | some tk =>
      have htkne : tk ≠ t0 := by
        intro hc
        subst hc
        exact hst (peek_some_facts hp).2.2.1
      have hu2 : t0.uid < ({ s1 with time := tk.time } : TurnQueue).next_uid := hu1
      have hst2 :
          ({ s1 with time := tk.time } : TurnQueue).sched_ticket t0.actor ≠ some t0 :=
        hst1
      have hsr := @stale_runHandler _ tk.actor act _ hu2 hst2
      cases hr : runHandler { s1 with time := tk.time } tk.actor act with
      | ok s3 =>
        obtain ⟨h1, h2⟩ := hsr.1 s3 hr
        by_cases hkeep : s3.sched_ticket tk.actor = some tk
        · have hnext : s.next act = .err .runtimeError s3 (some tk) := by
            simp only [TurnQueue.next, hp, hr, if_pos hkeep]
          have hro : runOp s (.next act) = (s3, some tk) := by
            simp [runOp, hnext]
          rw [hro]
          refine ⟨h1, h2, ?_⟩
          simp only [ne_eq, Option.some.injEq]
          exact htkne
        · have hnext : s.next act = .ok s3 tk := by
            simp only [TurnQueue.next, hp, hr, if_neg hkeep]
          have hro : runOp s (.next act) = (s3, some tk) := by
            simp [runOp, hnext]
          rw [hro]
          refine ⟨h1, h2, ?_⟩
          simp only [ne_eq, Option.some.injEq]
          exact htkne
      | error p =>
        rcases p with ⟨e, s3⟩
        obtain ⟨h1, h2⟩ := hsr.2 e s3 hr
        have hnext : s.next act = .err e s3 (some tk) := by
          simp only [TurnQueue.next, hp, hr]
        have hro : runOp s (.next act) = (s3, some tk) := by
          simp [runOp, hnext]
        rw [hro]
        refine ⟨h1, h2, ?_⟩
        simp only [ne_eq, Option.some.injEq]
        exact htkne

theorem stale_run {s : TurnQueue} {ops : List Op} {t0 : Ticket}
    (hu : t0.uid < s.next_uid) (hst : s.sched_ticket t0.actor ≠ some t0) :
    t0.uid < (run s ops).1.next_uid ∧
      (run s ops).1.sched_ticket t0.actor ≠ some t0 ∧
      t0 ∉ (run s ops).2 := by
  induction ops generalizing s with
  | nil =>
    simpa [run] using ⟨hu, hst⟩
  | cons op ops ih =>
    obtain ⟨h1, h2, h3⟩ := @stale_runOp _ op _ hu hst
    rcases hro : runOp s op with ⟨s4, r⟩
    rw [hro] at h1 h2 h3
    obtain ⟨ih1, ih2, ih3⟩ := ih h1 h2
    have hrun : run s (op :: ops) = ((run s4 ops).1, r.toList ++ (run s4 ops).2) := by
      simp [run, hro]
    rw [hrun]
    refine ⟨ih1, ih2, ?_⟩
    intro hc
    rcases List.mem_append.mp hc with hc1 | hc2
    · cases r with
      | none => simp at hc1
      | some tk =>
        simp at hc1
        subst hc1
        exact h3 rfl
    · exact ih3 hc2

theorem sched_reschedule_heap {s s2 : TurnQueue} {a : Nat} {i : Int}
    (hok : sched_reschedule s a i = .ok s2) :
    s2.heap = heappush s.heap.tail ⟨s.time + i, s.next_uid, a, s.time⟩ := by
  cases hh : s.heap with
  | nil =>
    rw [sched_reschedule_nil hh] at hok
    exact absurd hok (by simp)
  | cons top tl =>
    have hh0 : s.heap.head? = some top := by rw [hh]; rfl
    by_cases hr : s.sched_ticket a = some top
    · rw [sched_reschedule_ok hh0 hr] at hok
      injection hok with hs2
      subst hs2
      rw [hh]
    · rw [sched_reschedule_stale hh0 hr] at hok
      exact absurd hok (by simp)

theorem reschedule_keep_eq {s s2 : TurnQueue} {a : Nat} {i : Int} {tk : Ticket}
    (hok : sched_reschedule s a i = .ok s2)
    (hkeep : s2.sched_ticket a = some tk) : tk ∈ s2.heap := by
  obtain ⟨ht, hn, hr⟩ := sched_reschedule_time hok
  rw [hr] at hkeep
  change (if a = a then some (⟨s.time + i, s.next_uid, a, s.time⟩ : Ticket)
      else s.sched_ticket a) = some tk at hkeep
  rw [if_pos rfl] at hkeep
  injection hkeep with hkeep2
  rw [sched_reschedule_heap hok]
  exact mem_heappush.mpr (Or.inl hkeep2.symm)

theorem runHandler_keep_mem {s s3 : TurnQueue} {a : Nat} {act : HandlerAction}
    {tk : Ticket} (hok : runHandler s a act = .ok s3)
    (hkeep : s3.sched_ticket a = some tk) (hmem : tk ∈ s.heap) :
    tk ∈ s3.heap := by
  cases act with
  | reschedule i =>
    simp only [runHandler] at hok
    cases hr : sched_reschedule s a i with
    | ok s4 =>
      rw [hr] at hok
      simp at hok
      subst hok
      exact reschedule_keep_eq hr hkeep
    | error e =>
      rw [hr] at hok
      simp at hok
  | rescheduleTwice i1 i2 =>
    simp only [runHandler] at hok
    cases hr1 : sched_reschedule s a i1 with
    | ok s4 =>
      rw [hr1] at hok
      simp only at hok
      cases hr2 : sched_reschedule s4 a i2 with
      | ok s5 =>
        rw [hr2] at hok
        simp at hok
        subst hok
        exact reschedule_keep_eq hr2 hkeep
      | error e =>
        rw [hr2] at hok
        simp at hok
    | error e =>
      rw [hr1] at hok
      simp at hok
  | clear =>
    have h2 : sched_clear s a = s3 := by simpa [runHandler] using hok
    subst h2
    rw [sched_clear_def] at hkeep
    change (if a = a then none else s.sched_ticket a) = some tk at hkeep
    rw [if_pos rfl] at hkeep
    exact absurd hkeep (by simp)
  | noop =>
    have h2 : s = s3 := by simpa [runHandler] using hok
    subst h2
    exact hmem

theorem runHandler_err_mem {s s3 : TurnQueue} {a : Nat} {act : HandlerAction}
    {e : RunError} {tk : Ticket} (herr : runHandler s a act = .error (e, s3))
    (hkeep : s3.sched_ticket a = some tk) (hmem : tk ∈ s.heap) :
    tk ∈ s3.heap := by
  cases act with
  | reschedule i =>
    simp only [runHandler] at herr
    cases hr : sched_reschedule s a i with
    | ok s4 =>
      rw [hr] at herr
      simp at herr
    | error e2 =>
      rw [hr] at herr
      simp at herr
      rw [← herr.2]
      exact hmem
  | rescheduleTwice i1 i2 =>
    simp only [runHandler] at herr
    cases hr1 : sched_reschedule s a i1 with
    | ok s4 =>
      rw [hr1] at herr
      simp only at herr
      cases hr2 : sched_reschedule s4 a i2 with
      | ok s5 =>
        rw [hr2] at herr
        simp at herr
      | error e2 =>
        rw [hr2] at herr
        simp at herr
        rw [← herr.2] at hkeep ⊢
        exact reschedule_keep_eq hr1 hkeep
    | error e2 =>
      rw [hr1] at herr
      simp at herr
      rw [← herr.2]
      exact hmem
  | clear =>
    simp [runHandler] at herr
  | noop =>
    simp [runHandler] at herr

theorem next_handed_valid {s : TurnQueue} {act : HandlerAction} {tk : Ticket}
    (h : (s.next act).handedTicket = some tk) :
    s.sched_ticket tk.actor = some tk := by
  rcases hp : s.peek with ⟨s1, r⟩
  cases r with
  | none =>
    have hnext : s.next act = .err .indexError s1 none := by
      simp only [TurnQueue.next, hp]
    rw [hnext] at h
    simp [NextResult.handedTicket] at h
  | some tk2 =>
    have hv : isValid s tk2 := (peek_some_facts hp).2.2.1
    cases hr : runHandler { s1 with time := tk2.time } tk2.actor act with
    | ok s3 =>
      by_cases hkeep : s3.sched_ticket tk2.actor = some tk2
      · have hnext : s.next act = .err .runtimeError s3 (some tk2) := by
          simp only [TurnQueue.next, hp, hr, if_pos hkeep]
        rw [hnext] at h
        simp [NextResult.handedTicket] at h
        subst h
        exact hv
      · have hnext : s.next act = .ok s3 tk2 := by
          simp only [TurnQueue.next, hp, hr, if_neg hkeep]
        rw [hnext] at h
        simp [NextResult.handedTicket] at h
        subst h
        exact hv
    | error p =>
      rcases p with ⟨e, s3⟩
      have hnext : s.next act = .err e s3 (some tk2) := by
        simp only [TurnQueue.next, hp, hr]
      rw [hnext] at h
      simp [NextResult.handedTicket] at h
      subst h
      exact hv

/-- Claim C1: across every sequence of schedule, clear and next operations
with non-negative intervals, driven from a fresh queue, the tickets handed
to turn handlers come out in nondecreasing time, and among tickets with
equal time in exactly the order they were scheduled: since `uid` values
are assigned in scheduling order, this is the statement that the handed
trace is pairwise ordered by `Ticket.le` (nondecreasing time, and
nondecreasing uid among equal times), which holds also for zero intervals
and many tickets on one tick. -/
theorem C1_fifo_order (ops : List Op) (hops : ops.all Op.nonneg = true) :
    (run initState ops).2.Pairwise Ticket.le :=
  (run_facts hops traceInv_init).2.1

/-- Witness for C1 at the four-action scenario of the test suite:
intervals 3, 2, 1, 4 scheduled at clock 0 are handed back in time order
1, 2, 3, 4. -/
theorem C1_fifo_order_witness :
    ([Op.schedule 0 3, Op.schedule 1 2, Op.schedule 2 1, Op.schedule 3 4,
        Op.next .clear, Op.next .clear, Op.next .clear,
        Op.next .clear].all Op.nonneg = true) ∧
      (run initState [Op.schedule 0 3, Op.schedule 1 2, Op.schedule 2 1,
        Op.schedule 3 4, Op.next .clear, Op.next .clear, Op.next .clear,
        Op.next .clear]).2.Pairwise Ticket.le :=
  ⟨by decide, C1_fifo_order _ (by decide)⟩

/-- Claim C3: whenever `next` hands a ticket to a handler, the state it
leaves behind has its clock equal to that ticket's time (in particular,
immediately after a normal pop the clock equals the popped time), and
across any sequence of operations with non-negative intervals from a
state satisfying the run invariant the clock never decreases. -/
theorem C3_clock_monotone :
    (∀ (s : TurnQueue) (act : HandlerAction) (tk : Ticket),
        (s.next act).handedTicket = some tk →
          (s.next act).state.time = tk.time) ∧
      (∀ (s : TurnQueue) (last : Option Ticket) (ops : List Op),
        TraceInv s last → ops.all Op.nonneg = true →
          s.time ≤ (run s ops).1.time) :=
  ⟨fun _ _ _ h => next_handed_time h,
    fun _ _ _ hinv hops => (run_facts hops hinv).1⟩

/-- Witness for C3: popping the interval-2 ticket advances the clock to 2,
and a concrete run never decreases the clock. -/
theorem C3_clock_monotone_witness :
    ((sched_schedule initState 0 2).next .clear).state.time = (2 : Int) ∧
      initState.time ≤
        (run initState [Op.schedule 0 2, Op.next .clear]).1.time :=
  ⟨C3_clock_monotone.1 (sched_schedule initState 0 2) .clear ⟨2, 0, 0, 0⟩
      (by decide),
    C3_clock_monotone.2 initState none _ traceInv_init (by decide)⟩

/-- Claim C5: if, after the turn handler returns, the actor's current
ticket reference is still the very ticket that was processed (the handler
neither installed a new ticket nor cleared the reference), `next` raises
the fatal RuntimeError, carrying the post-handler state and the processed
ticket. -/
theorem C5_contract_violation (s s1 s3 : TurnQueue) (act : HandlerAction)
    (tk : Ticket) (hp : s.peek = (s1, some tk))
    (hrun : runHandler { s1 with time := tk.time } tk.actor act = .ok s3)
    (hkeep : s3.sched_ticket tk.actor = some tk) :
    s.next act = .err .runtimeError s3 (some tk) := by
  simp only [TurnQueue.next, hp, hrun, if_pos hkeep]

/-- Witness for C5: a handler that does nothing triggers the RuntimeError. -/
theorem C5_contract_violation_witness :
    (sched_schedule initState 0 1).next .noop =
      .err .runtimeError { sched_schedule initState 0 1 with time := 1 }
        (some ⟨1, 0, 0, 0⟩) :=
  C5_contract_violation (sched_schedule initState 0 1)
    (sched_schedule initState 0 1)
    { sched_schedule initState 0 1 with time := 1 } .noop ⟨1, 0, 0, 0⟩
    rfl rfl rfl

/-- Claim C6 counterexample: `sched_schedule` called while the actor is
already scheduled raises nothing; the call completes, the heap then holds
both the old and the new ticket, and the reference points at the new one
(silent supersession, as the source docstring states), contradicting the
claim that this is rejected with a protocol-violation error. -/
theorem C6_counterexample :
    (sched_schedule (sched_schedule initState 0 1) 0 2).heap =
        [⟨1, 0, 0, 0⟩, ⟨2, 1, 0, 0⟩] ∧
      (sched_schedule (sched_schedule initState 0 1) 0 2).sched_ticket 0 =
        some ⟨2, 1, 0, 0⟩ :=
  ⟨by decide, by decide⟩

/-- Claim C6 as amended: `sched_schedule` while already scheduled does not
fail; it installs a fresh ticket as the current reference, the superseded
ticket is no longer the reference, and it stays in the heap as garbage. -/
theorem C6_silent_supersede (s : TurnQueue) (a : Nat) (i : Int)
    (old : Ticket) (_hold : s.sched_ticket a = some old)
    (hu : old.uid ≠ s.next_uid) :
    (sched_schedule s a i).sched_ticket a =
        some ⟨s.time + i, s.next_uid, a, s.time⟩ ∧
      (sched_schedule s a i).sched_ticket a ≠ some old ∧
      (old ∈ s.heap → old ∈ (sched_schedule s a i).heap) := by
  rw [sched_schedule_def]
  refine ⟨?_, ?_, ?_⟩
  · change (if a = a then some (⟨s.time + i, s.next_uid, a, s.time⟩ : Ticket)
        else s.sched_ticket a) = _
    rw [if_pos rfl]
  · change (if a = a then some (⟨s.time + i, s.next_uid, a, s.time⟩ : Ticket)
        else s.sched_ticket a) ≠ some old
    rw [if_pos rfl]
    intro hc
    injection hc with hc2
    exact hu (congrArg Ticket.uid hc2).symm
  · intro hm
    exact mem_heappush.mpr (Or.inr hm)

/-- Witness for C6 as amended, at the concrete double scheduling of the
counterexample. -/
theorem C6_silent_supersede_witness :
    (sched_schedule (sched_schedule initState 0 1) 0 2).sched_ticket 0 ≠
        some ⟨1, 0, 0, 0⟩ ∧
      (⟨1, 0, 0, 0⟩ : Ticket) ∈
        (sched_schedule (sched_schedule initState 0 1) 0 2).heap := by
  have h := C6_silent_supersede (sched_schedule initState 0 1) 0 2
    ⟨1, 0, 0, 0⟩ (by decide) (by decide)
  exact ⟨h.2.1, h.2.2 (by decide)⟩

/-- Claim C9: `sched_progress` on a ticket whose time equals its insert
time yields the modelled ZeroDivisionError (`none`), a defined failure,
and succeeds with a value for every ticket whose time is strictly after
its insert time. -/
theorem C9_progress_domain (q : TurnQueue) (tk : Ticket) :
    (tk.time = tk.insert_time → sched_progress q tk = none) ∧
      (tk.insert_time < tk.time → ∃ r, sched_progress q tk = some r) := by
  constructor
  · intro h
    simp [sched_progress, h]
  · intro h
    exact ⟨(sched_time_passed q tk : ℚ) / ((tk.time - tk.insert_time : Int) : ℚ),
      by rw [sched_progress, if_neg (ne_of_gt h)]⟩

/-- Witness for C9 at a zero-length and a positive-length ticket. -/
theorem C9_progress_domain_witness :
    sched_progress initState ⟨0, 0, 0, 0⟩ = none ∧
      ∃ r, sched_progress initState ⟨1, 0, 0, 0⟩ = some r :=
  ⟨(C9_progress_domain initState ⟨0, 0, 0, 0⟩).1 (by decide),
    (C9_progress_domain initState ⟨1, 0, 0, 0⟩).2 (by decide)⟩

/-- Claim C2 counterexample: the claim asserts that a superseded ticket
remains physically in the heap until skipped or purged, but
`sched_reschedule` removes it eagerly through `heapreplace`: after the
sole actor (ticket `⟨1,0,0,0⟩`) reschedules, the heap holds only the
replacement `⟨1,1,0,0⟩` and the superseded ticket is gone at once. -/
theorem C2_counterexample :
    (sched_reschedule (sched_schedule initState 0 1) 0 1).toOption.map
        TurnQueue.heap = some [⟨1, 1, 0, 0⟩] ∧
      (⟨1, 0, 0, 0⟩ : Ticket) ∉ [(⟨1, 1, 0, 0⟩ : Ticket)] :=
  ⟨by decide, by decide⟩

/-- Claim C2 as amended: a ticket that is not its actor's current
reference is never reported by peek, never handed to a handler, and once
stale (with its uid already consumed) stays out of every future hand-off
and every future peek report; a ticket superseded by a second
`sched_schedule` does remain physically in the heap, while
`sched_reschedule` removes the superseded ticket eagerly (see the
counterexample). -/
theorem C2_lazy_invalidation :
    (∀ (s s1 : TurnQueue) (tk : Ticket), s.peek = (s1, some tk) →
        s.sched_ticket tk.actor = some tk) ∧
      (∀ (s : TurnQueue) (act : HandlerAction) (tk : Ticket),
        (s.next act).handedTicket = some tk →
          s.sched_ticket tk.actor = some tk) ∧
      (∀ (s : TurnQueue) (a : Nat) (i : Int) (t0 : Ticket), t0 ∈ s.heap →
        t0 ∈ (sched_schedule s a i).heap) ∧
      (∀ (s : TurnQueue) (ops : List Op) (t0 : Ticket),
        t0.uid < s.next_uid → s.sched_ticket t0.actor ≠ some t0 →
          t0 ∉ (run s ops).2 ∧ ((run s ops).1.peek).2 ≠ some t0) := by
  refine ⟨?_, ?_, ?_, ?_⟩
  · intro s s1 tk hp
    exact (peek_some_facts hp).2.2.1
  · intro s act tk h
    exact next_handed_valid h
  · intro s a i t0 hm
    rw [sched_schedule_def]
    exact mem_heappush.mpr (Or.inr hm)
  · intro s ops t0 hu hst
    obtain ⟨h1, h2, h3⟩ := @stale_run _ ops _ hu hst
    refine ⟨h3, ?_⟩
    rcases hfp : (run s ops).1.peek with ⟨sf, rf⟩
    intro hc
    simp at hc
    subst hc
    exact h2 (peek_some_facts hfp).2.2.1

/-- Witness for C2 as amended: after actor 0 is scheduled twice, the
first ticket is stale; a subsequent turn never hands it out and the final
peek does not report it. -/
theorem C2_lazy_invalidation_witness :
    (⟨1, 0, 0, 0⟩ : Ticket) ∉
        (run (sched_schedule (sched_schedule initState 0 1) 0 2)
          [Op.next .clear]).2 ∧
      ((run (sched_schedule (sched_schedule initState 0 1) 0 2)
          [Op.next .clear]).1.peek).2 ≠ some ⟨1, 0, 0, 0⟩ :=
  C2_lazy_invalidation.2.2.2
    (sched_schedule (sched_schedule initState 0 1) 0 2)
    [Op.next .clear] ⟨1, 0, 0, 0⟩ (by decide) (by decide)

/-- Claim C4 counterexample: calling `sched_reschedule` twice inside one
turn handler is not always detected.  With a single actor, the first
reschedule leaves the replacement ticket at the heap root, so the second
call passes the code's only check (`sched_ticket is heap[0]`) and `next`
completes without any error, rescheduling the actor a second time. -/
theorem C4_counterexample :
    ((sched_schedule initState 0 5).next (.rescheduleTwice 3 4)).isOk =
        true ∧
      ((sched_schedule initState 0 5).next
            (.rescheduleTwice 3 4)).state.sched_ticket 0 =
        some ⟨9, 2, 0, 5⟩ :=
  ⟨by decide, by decide⟩

/-- Claim C4 as amended: `sched_reschedule` raises `IndexError` on an
empty heap and `RuntimeError` whenever the calling actor's current ticket
is not the heap minimum; in particular, during the processing of a turn,
any actor other than the one whose (well-formed) ticket was popped gets
the RuntimeError.  A second call in the same handler invocation, however,
is rejected only when the first call's replacement ticket is no longer
the heap minimum (see the counterexample). -/
theorem C4_reschedule_guard :
    (∀ (s : TurnQueue) (a : Nat) (i : Int), s.heap = [] →
        sched_reschedule s a i = .error .indexError) ∧
      (∀ (s : TurnQueue) (a : Nat) (i : Int) (top : Ticket),
        s.heap.head? = some top → s.sched_ticket a ≠ some top →
          sched_reschedule s a i = .error .runtimeError) ∧
      (∀ (s s1 : TurnQueue) (tk : Ticket) (b : Nat) (i : Int), Wf s →
        s.peek = (s1, some tk) → b ≠ tk.actor →
          sched_reschedule { s1 with time := tk.time } b i =
            .error .runtimeError) := by
  refine ⟨?_, ?_, ?_⟩
  · intro s a i hh
    exact sched_reschedule_nil hh
  · intro s a i top hh hr
    exact sched_reschedule_stale hh hr
  · intro s s1 tk b i hwf hp hb
    obtain ⟨hs1eq, hhd, hv, hmem⟩ := peek_some_facts hp
    have hhd2 : ({ s1 with time := tk.time } : TurnQueue).heap.head? = some tk :=
      hhd
    have hrefs :
        ({ s1 with time := tk.time } : TurnQueue).sched_ticket b =
          s.sched_ticket b := by
      rw [hs1eq]
    have hne : s.sched_ticket b ≠ some tk := by
      intro hc
      exact hb (hwf b tk hc).symm
    refine sched_reschedule_stale hhd2 ?_
    rw [hrefs]
    exact hne

/-- Witness for C4 as amended: with actor 0 due at time 3 and actor 1 due
at time 5, a reschedule issued by actor 1 while actor 0 is being
processed raises the RuntimeError. -/
theorem C4_reschedule_guard_witness :
    sched_reschedule
        { sched_schedule (sched_schedule initState 0 3) 1 5 with time := 3 }
        1 9 = .error .runtimeError := by
  have hwf : Wf (sched_schedule (sched_schedule initState 0 3) 1 5) := by
    intro a t h
    by_cases h1 : a = 1
    · subst h1
      have h2 :
          (sched_schedule (sched_schedule initState 0 3) 1 5).sched_ticket 1 =
            some ⟨5, 1, 1, 0⟩ := by decide
      rw [h2] at h
      injection h with h3
      subst h3
      rfl
    · by_cases h0 : a = 0
      · subst h0
        have h2 :
            (sched_schedule (sched_schedule initState 0 3) 1 5).sched_ticket 0 =
              some ⟨3, 0, 0, 0⟩ := by decide
        rw [h2] at h
        injection h with h3
        subst h3
        rfl
      · have h2 :
            (sched_schedule (sched_schedule initState 0 3) 1 5).sched_ticket a =
              none := by
          simp [sched_schedule_def, initState, h1, h0]
        rw [h2] at h
        exact absurd h (by simp)
  exact C4_reschedule_guard.2.2
    (sched_schedule (sched_schedule initState 0 3) 1 5)
    (sched_schedule (sched_schedule initState 0 3) 1 5)
    ⟨3, 0, 0, 0⟩ 1 9 hwf rfl (by decide)

theorem head?_mem {l : List Ticket} {a : Ticket} (h : l.head? = some a) :
    a ∈ l := by
  cases l with
  | nil => simp at h
  | cons b rest =>
    simp at h
    subst h
    exact List.mem_cons_self b rest

/-- Claim C7 counterexample: the claim says a failing peek mutates
nothing, but peek discards stale entries in place before raising.  With
one scheduled actor whose ticket was then cleared, peek raises the
empty-queue IndexError yet the heap has physically changed from one entry
to empty. -/
theorem C7_counterexample :
    (sched_clear (sched_schedule initState 0 1) 0).heap = [⟨1, 0, 0, 0⟩] ∧
      ((sched_clear (sched_schedule initState 0 1) 0).peek).2 = none ∧
      ((sched_clear (sched_schedule initState 0 1) 0).peek).1.heap = [] :=
  ⟨by decide, by decide, by decide⟩

/-- Claim C7 as amended: peek (and next through it) raises the
empty-queue IndexError exactly when no valid ticket is in the heap, and a
failing call never changes the logical state: the clock, the uid counter
and every actor reference are untouched, and membership of valid tickets
in the heap is preserved (only stale entries are discarded).  The
physical heap list may shrink on failure (see the counterexample). -/
theorem C7_empty_failure (s : TurnQueue) :
    ((s.peek).2 = none ↔ ∀ t ∈ s.heap, ¬ isValid s t) ∧
      (s.peek).1.time = s.time ∧
      (s.peek).1.next_uid = s.next_uid ∧
      (s.peek).1.sched_ticket = s.sched_ticket ∧
      (∀ t, isValid s t → (t ∈ s.heap ↔ t ∈ (s.peek).1.heap)) ∧
      (∀ (act : HandlerAction) (s2 : TurnQueue),
        s.next act = .err .indexError s2 none →
          s2.time = s.time ∧ s2.sched_ticket = s.sched_ticket ∧
            ∀ t, isValid s t → (t ∈ s.heap ↔ t ∈ s2.heap)) := by
  refine ⟨peekLoop_none_iff, rfl, rfl, rfl, ?_, ?_⟩
  · intro t hv
    exact peekLoop_valid_mem hv
  · intro act s2 h
    rcases hp : s.peek with ⟨s1, r⟩
    cases r with
    | none =>
      have hnext : s.next act = .err .indexError s1 none := by
        simp only [TurnQueue.next, hp]
      rw [hnext] at h
      injection h with he hs hh
      subst hs
      obtain ⟨ht, hu, hr⟩ := peek_fst_fields hp
      refine ⟨ht, hr, ?_⟩
      intro t hv
      have hnone : (s.peek).2 = none := by
        rw [hp]
      have hnoval := peekLoop_none_iff.mp hnone
      constructor
      · intro hm
        exact absurd hv (hnoval t hm)
      · intro hm
        have hheap : s1.heap = (peekLoop s s.heap).1 := by
          have h2 := congrArg Prod.fst hp
          rw [peek_def] at h2
          simp at h2
          rw [← h2]
        rw [hheap, peekLoop_none_heap hnone] at hm
        simp at hm
    | some tk2 =>
      cases hr : runHandler { s1 with time := tk2.time } tk2.actor act with
      | ok s3 =>
        by_cases hk : s3.sched_ticket tk2.actor = some tk2
        · have hnext : s.next act = .err .runtimeError s3 (some tk2) := by
            simp only [TurnQueue.next, hp, hr, if_pos hk]
          rw [hnext] at h
          simp at h
        · have hnext : s.next act = .ok s3 tk2 := by
            simp only [TurnQueue.next, hp, hr, if_neg hk]
          rw [hnext] at h
          simp at h
      | error p =>
        rcases p with ⟨e, s3⟩
        have hnext : s.next act = .err e s3 (some tk2) := by
          simp only [TurnQueue.next, hp, hr]
        rw [hnext] at h
        simp at h

/-- Witness for C7 as amended: a valid ticket survives peek, and a queue
holding only a cleared (stale) ticket reports empty. -/
theorem C7_empty_failure_witness :
    ((⟨1, 0, 0, 0⟩ : Ticket) ∈ (sched_schedule initState 0 1).heap ↔
        (⟨1, 0, 0, 0⟩ : Ticket) ∈ ((sched_schedule initState 0 1).peek).1.heap) ∧
      ((sched_clear (sched_schedule initState 0 1) 0).peek).2 = none :=
  ⟨(C7_empty_failure (sched_schedule initState 0 1)).2.2.2.2.1 ⟨1, 0, 0, 0⟩
      (by decide),
    (C7_empty_failure (sched_clear (sched_schedule initState 0 1) 0)).1.mpr
      (by decide)⟩

/-- Claim C10: `next` assigns the clock from the dequeued ticket before
invoking the handler, so when the end-of-turn contract is violated and
the fatal RuntimeError escapes, the state it carries keeps the advanced
clock and still holds the processed ticket in the heap (the failing call
leaves the state mutated); and on a successful reschedule the new ticket
is stamped with the already-advanced clock (insert time equal to the
processed ticket's time), showing the clock was set before the handler
ran. -/
theorem C10_error_leaves_state :
    (∀ (s s2 : TurnQueue) (act : HandlerAction) (tk : Ticket),
        s.next act = .err .runtimeError s2 (some tk) →
        s2.sched_ticket tk.actor = some tk →
        s2.time = tk.time ∧ tk ∈ s2.heap) ∧
      (∀ (s s3 : TurnQueue) (i : Int) (tk : Ticket),
        s.next (.reschedule i) = .ok s3 tk →
          ∃ u, s3.sched_ticket tk.actor =
            some ⟨tk.time + i, u, tk.actor, tk.time⟩) := by
  constructor
  · intro s s2 act tk h hkeep
    rcases hp : s.peek with ⟨s1, r⟩
    cases r with
    | none =>
      have hnext : s.next act = .err .indexError s1 none := by
        simp only [TurnQueue.next, hp]
      rw [hnext] at h
      simp at h
    | some tk2 =>
      have hmem1 : tk2 ∈ ({ s1 with time := tk2.time } : TurnQueue).heap :=
        head?_mem (peek_some_facts hp).2.1
      cases hr : runHandler { s1 with time := tk2.time } tk2.actor act with
      | ok s3 =>
        by_cases hk : s3.sched_ticket tk2.actor = some tk2
        · have hnext : s.next act = .err .runtimeError s3 (some tk2) := by
            simp only [TurnQueue.next, hp, hr, if_pos hk]
          rw [hnext] at h
          injection h with he hs hh
          subst hs
          injection hh with hh2
          subst hh2
          exact ⟨(runHandler_time).1 _ hr,
            runHandler_keep_mem hr hkeep hmem1⟩
        · have hnext : s.next act = .ok s3 tk2 := by
            simp only [TurnQueue.next, hp, hr, if_neg hk]
          rw [hnext] at h
          simp at h
      | error p =>
        rcases p with ⟨e, s3⟩
        have hnext : s.next act = .err e s3 (some tk2) := by
          simp only [TurnQueue.next, hp, hr]
        rw [hnext] at h
        injection h with he hs hh
        subst hs
        injection hh with hh2
        subst hh2
        subst he
        exact ⟨(runHandler_time).2 .runtimeError _ hr,
          runHandler_err_mem hr hkeep hmem1⟩
  · intro s s3 i tk h
    rcases hp : s.peek with ⟨s1, r⟩
    cases r with
    | none =>
      have hnext : s.next (.reschedule i) = .err .indexError s1 none := by
        simp only [TurnQueue.next, hp]
      rw [hnext] at h
      simp at h
    | some tk2 =>
      cases hr : runHandler { s1 with time := tk2.time } tk2.actor
          (.reschedule i) with
      | ok s4 =>
        by_cases hk : s4.sched_ticket tk2.actor = some tk2
        · have hnext : s.next (.reschedule i) =
              .err .runtimeError s4 (some tk2) := by
            simp only [TurnQueue.next, hp, hr, if_pos hk]
          rw [hnext] at h
          simp at h
        · have hnext : s.next (.reschedule i) = .ok s4 tk2 := by
            simp only [TurnQueue.next, hp, hr, if_neg hk]
          rw [hnext] at h
          injection h with hs hh
          rw [← hs, ← hh]
          simp only [runHandler] at hr
          cases hr2 : sched_reschedule { s1 with time := tk2.time } tk2.actor i with
          | ok s5 =>
            rw [hr2] at hr
            simp at hr
            subst hr
            obtain ⟨ht5, hn5, hrefs5⟩ := sched_reschedule_time hr2
            refine ⟨s1.next_uid, ?_⟩
            rw [hrefs5]
            change (if tk2.actor = tk2.actor
                then some (⟨({ s1 with time := tk2.time } : TurnQueue).time + i,
                  ({ s1 with time := tk2.time } : TurnQueue).next_uid, tk2.actor,
                  ({ s1 with time := tk2.time } : TurnQueue).time⟩ : Ticket)
                else ({ s1 with time := tk2.time } : TurnQueue).sched_ticket
                  tk2.actor) =
              some ⟨tk2.time + i, s1.next_uid, tk2.actor, tk2.time⟩
            rw [if_pos rfl]
          | error e =>
            rw [hr2] at hr
            simp at hr
      | error p =>
        rcases p with ⟨e, s4⟩
        have hnext : s.next (.reschedule i) = .err e s4 (some tk2) := by
          simp only [TurnQueue.next, hp, hr]
        rw [hnext] at h
        simp at h

/-- Witness for C10: the failed noop turn leaves the clock advanced to 1
and the processed ticket still in the heap. -/
theorem C10_error_leaves_state_witness :
    ({ sched_schedule initState 0 1 with time := 1 } : TurnQueue).time =
        (⟨1, 0, 0, 0⟩ : Ticket).time ∧
      (⟨1, 0, 0, 0⟩ : Ticket) ∈
        ({ sched_schedule initState 0 1 with time := 1 } : TurnQueue).heap :=
  C10_error_leaves_state.1 (sched_schedule initState 0 1)
    { sched_schedule initState 0 1 with time := 1 } .noop ⟨1, 0, 0, 0⟩
    rfl (by decide)

/-- Claim C8: for a ticket created by `sched_schedule` with interval
`n > 0`, time passed plus time left equals `n` at every clock value,
progress is 0 when the clock sits at the insert time, 1 when it sits at
the due time, and is the linear map `now ↦ (now - insert_time) / n` in
general (progress is modelled over the rationals). -/
theorem C8_progress_bounds (s : TurnQueue) (a : Nat) (n : Int) (tk : Ticket)
    (hn : 0 < n)
    (htk : (sched_schedule s a n).sched_ticket a = some tk) :
    (∀ q : TurnQueue, sched_time_passed q tk + sched_time_left q tk = n) ∧
      (∀ q : TurnQueue, q.time = tk.insert_time →
        sched_progress q tk = some 0) ∧
      (∀ q : TurnQueue, q.time = tk.time → sched_progress q tk = some 1) ∧
      (∀ q : TurnQueue, sched_progress q tk =
        some (((q.time - tk.insert_time : Int) : ℚ) / ((n : Int) : ℚ))) := by
  rw [sched_schedule_def] at htk
  change (if a = a then some (⟨s.time + n, s.next_uid, a, s.time⟩ : Ticket)
      else s.sched_ticket a) = some tk at htk
  rw [if_pos rfl] at htk
  injection htk with h2
  subst h2
  have hne : ¬ ((⟨s.time + n, s.next_uid, a, s.time⟩ : Ticket).time =
      (⟨s.time + n, s.next_uid, a, s.time⟩ : Ticket).insert_time) := by
    change ¬ (s.time + n = s.time)
    omega
  have hn2 : ((n : Int) : ℚ) ≠ 0 := Int.cast_ne_zero.mpr (by omega)
  have hlin : ∀ q : TurnQueue,
      sched_progress q (⟨s.time + n, s.next_uid, a, s.time⟩ : Ticket) =
        some (((q.time - s.time : Int) : ℚ) / ((n : Int) : ℚ)) := by
    intro q
    rw [sched_progress, if_neg hne]
    congr 1
    change ((q.time - s.time : Int) : ℚ) / ((s.time + n - s.time : Int) : ℚ) =
      ((q.time - s.time : Int) : ℚ) / ((n : Int) : ℚ)
    push_cast
    ring_nf
  refine ⟨?_, ?_, ?_, fun q => hlin q⟩
  · intro q
    change q.time - s.time + (s.time + n - q.time) = n
    ring
  · intro q hq
    rw [hlin q, hq]
    change some (((s.time - s.time : Int) : ℚ) / ((n : Int) : ℚ)) = some 0
    simp
  · intro q hq
    rw [hlin q, hq]
    change some (((s.time + n - s.time : Int) : ℚ) / ((n : Int) : ℚ)) = some 1
    congr 1
    push_cast
    rw [add_sub_cancel_left]
    exact div_self hn2

/-- Witness for C8 at the test scenario: ticket with interval 2 scheduled
at clock 0, queried at clock 1: passed plus left is 2 and progress is
one half. -/
theorem C8_progress_bounds_witness :
    sched_time_passed { initState with time := 1 } ⟨2, 0, 0, 0⟩ +
        sched_time_left { initState with time := 1 } ⟨2, 0, 0, 0⟩ = 2 ∧
      sched_progress { initState with time := 1 } ⟨2, 0, 0, 0⟩ =
        some (1 / 2) := by
  have h := C8_progress_bounds initState 0 2 ⟨2, 0, 0, 0⟩ (by decide)
    (by decide)
  refine ⟨h.1 { initState with time := 1 }, ?_⟩
  have h4 := h.2.2.2 { initState with time := 1 }
  simpa using h4
